import Mathlib

/-!
Shallow embedding of the core engine of the velocity-type typing game
(src/App.tsx, src/services/geminiService.ts, src/services/multiplayerService.ts,
src/types.ts).

Conventions of the embedding:
* JavaScript strings are Lean `String`s; `str[i]` (which yields `undefined`
  out of range) becomes `str.data.get? i : Option Char`.
* React state is an explicit `AppState` record; a `setX(...)` call becomes a
  field update on the record.
* The keystroke handler can dereference `undefined` (a runtime `TypeError`),
  so it returns `Except String AppState`: `Except.error` is a thrown
  exception, `Except.ok` the state after the handler returns.
* JavaScript numbers used as timestamps/counters are `Int`/`Nat`; fractional
  arithmetic (`/ 1000 / 60`, `Math.round`) is over `ℚ`.
* `Math.round` rounds half toward positive infinity: `jsRound`.
-/

/-- GameStatus enum (src/types.ts). -/
inductive GameStatus where
  | IDLE
  | LOADING
  | PLAYING
  | FINISHED
deriving DecidableEq

/-- Difficulty enum (src/types.ts). -/
inductive Difficulty where
  | EASY
  | MEDIUM
  | HARD
  | EXPERT
deriving DecidableEq

/-- OpponentStats (src/types.ts): snapshot of the remote player. -/
structure OpponentStats where
  wpm : Int
  progress : ℚ
  name : String
  carModel : String
deriving DecidableEq

/-- The ErrorMap `errorsRef.current : Record<string, number>` is modelled as
an association list from (lowercased) characters to counts; `getErr` is the
JS read `errors[key] || 0`. -/
def getErr (m : List (Char × Nat)) (c : Char) : Nat :=
  match m.find? (fun p => p.1 == c) with
  | some p => p.2
  | none => 0

/-- `errors[key] = (errors[key] || 0) + 1` (src/App.tsx line 271). -/
def incErr (m : List (Char × Nat)) (c : Char) : List (Char × Nat) :=
  (c, getErr m c + 1) :: m

/-- The session state of the App component (src/App.tsx lines 12-51):
the `useState` cells and mutable refs that the core engine reads/writes. -/
structure AppState where
  status : GameStatus
  sentences : List String
  currentSentenceIndex : Nat
  userInput : String
  startTime : Option Int
  endTime : Option Int
  totalCharsTyped : Nat
  correctChars : Nat
  timeRemaining : Nat
  isBraking : Bool
  errors : List (Char × Nat)
  opponentStats : OpponentStats
deriving DecidableEq

/-- `const GAME_DURATION = 120` (src/App.tsx line 9). -/
def GAME_DURATION : Nat := 120

/-- `Math.round`: floor (q + 1/2), i.e. round half toward +∞, the JavaScript
rounding used by `calculateWPM`/`calculateAccuracy`. -/
def jsRound (q : ℚ) : Int := Int.floor (q + 1 / 2)

/-- `startLocalGame` (src/App.tsx lines 198-214): enter PLAYING, record the
start timestamp, reset timer/buffer/index/counters, clear `endTime`,
braking flag and the analysis error map.  Note: the opponent snapshot is
NOT written by this function. -/
def startLocalGame (s : AppState) (now : Int) : AppState :=
  { s with
    status := GameStatus.PLAYING
    startTime := some now
    timeRemaining := GAME_DURATION
    userInput := ""
    currentSentenceIndex := 0
    totalCharsTyped := 0
    correctChars := 0
    endTime := none
    isBraking := false
    errors := [] }

/-- The earlier variant of `startLocalGame` (src/unnamed/part_000 lines
155-165): same resets, but it additionally resets the opponent snapshot via
`setOpponentStats({ wpm: 0, progress: 0, name: 'Opponent' })` and has no
braking flag / analysis refs to clear. -/
def startLocalGameP0 (s : AppState) (now : Int) : AppState :=
  { s with
    status := GameStatus.PLAYING
    startTime := some now
    timeRemaining := GAME_DURATION
    userInput := ""
    currentSentenceIndex := 0
    totalCharsTyped := 0
    correctChars := 0
    endTime := none
    opponentStats := { s.opponentStats with wpm := 0, progress := 0, name := "Opponent" } }

/-- The `if (input.length > userInput.length) { ... }` block of
`handleInputChange` (src/App.tsx lines 259-274): score the single character
at index `input.length - 1` against `currentTarget`.
`typedChar`/`expectedChar` are `Option Char` because JS indexing out of
range yields `undefined`; the JS `===` on them is `Option` equality.  In the
mismatch branch `expectedChar.toLowerCase()` throws a `TypeError` when
`expectedChar` is `undefined`. -/
def scoreKeystroke (s : AppState) (input currentTarget : String) :
    Except String AppState :=
  if s.userInput.length < input.length then
    let charIndex := input.length - 1
    let typedChar := input.data.get? charIndex
    let expectedChar := currentTarget.data.get? charIndex
    if typedChar = expectedChar then
      Except.ok { s with
        totalCharsTyped := s.totalCharsTyped + 1
        correctChars := s.correctChars + 1 }
    else
      match expectedChar with
      | none =>
          Except.error "TypeError: cannot read toLowerCase of undefined"
      | some c =>
          Except.ok { s with
            totalCharsTyped := s.totalCharsTyped + 1
            errors := incErr s.errors c.toLower
            isBraking := true }
  else
    Except.ok s

/-- `handleInputChange` (src/App.tsx lines 253-283): no-op unless PLAYING
with sentences loaded; score a grown input via `scoreKeystroke`; store the
new input; on exact match with the current target advance the sentence
index modulo the list length and clear the buffer. -/
def handleInputChange (s : AppState) (input : String) :
    Except String AppState :=
  if s.status ≠ GameStatus.PLAYING ∨ s.sentences.length = 0 then
    Except.ok s
  else
    match s.sentences.get? s.currentSentenceIndex with
    | none => Except.error "TypeError: currentTarget is undefined"
    | some currentTarget =>
      match scoreKeystroke s input currentTarget with
      | Except.error e => Except.error e
      | Except.ok s1 =>
        let s2 := { s1 with userInput := input }
        if input = currentTarget then
          Except.ok { s2 with
            currentSentenceIndex :=
              (s.currentSentenceIndex + 1) % s.sentences.length
            userInput := "" }
        else
          Except.ok s2

/-- A session run: fold a list of keystroke events (successive values of the
input element) through `handleInputChange`, stopping at the first thrown
exception. -/
def runInputs (s : AppState) : List String → Except String AppState
  | [] => Except.ok s
  | input :: rest =>
    match handleInputChange s input with
    | Except.ok s' => runInputs s' rest
    | Except.error e => Except.error e

/-- The derived progress value (src/App.tsx lines 72-74). -/
def progress (s : AppState) : ℚ :=
  if 0 < s.sentences.length then
    ((s.currentSentenceIndex : ℚ) +
        (s.userInput.length : ℚ) /
          (((s.sentences.get? s.currentSentenceIndex).getD "").length : ℚ)) /
      (s.sentences.length : ℚ)
  else 0

/-- `calculateWPM` (src/App.tsx lines 59-65).  `!startTime` is JS-falsy for
both `null` and `0`; `endTime || Date.now()` falls back to `now` for both
`null` and `0`. -/
def calculateWPM (startTime endTime : Option Int) (correctChars : Nat)
    (now : Int) : Int :=
  match startTime with
  | none => 0
  | some st =>
    if st = 0 then 0
    else
      let nw : Int :=
        match endTime with
        | none => now
        | some e => if e = 0 then now else e
      let timeInMinutes : ℚ := ((nw - st : Int) : ℚ) / 1000 / 60
      if timeInMinutes ≤ 0 then 0
      else jsRound ((correctChars : ℚ) / 5 / timeInMinutes)

/-- `calculateAccuracy` (src/App.tsx lines 67-70). -/
def calculateAccuracy (totalCharsTyped correctChars : Nat) : Int :=
  if totalCharsTyped = 0 then 100
  else jsRound ((correctChars : ℚ) / (totalCharsTyped : ℚ) * 100)

/-- Payload of a multiplayer UPDATE message (src/App.tsx lines 80-84). -/
structure UpdatePayload where
  wpm : Int
  progress : ℚ
  carModel : String
deriving DecidableEq

/-- The UPDATE case of the `multiplayer.onData` handler (src/App.tsx lines
111-117): merge the payload into the opponent snapshot, keeping fields the
message does not carry (`name`). -/
def applyUpdate (prev : OpponentStats) (p : UpdatePayload) : OpponentStats :=
  { prev with
    wpm := p.wpm
    progress := p.progress
    carModel := p.carModel }

/-- Apply a sequence of inbound UPDATE messages in arrival order. -/
def applyUpdates (o : OpponentStats) (msgs : List UpdatePayload) :
    OpponentStats :=
  msgs.foldl applyUpdate o

/-- The static fallback corpus `getFallbackSentences`
(src/unnamed/part_007 lines 50-110), verbatim. -/
def getFallbackSentences (difficulty : Difficulty) : List String :=
  let easy := [
    "The car is fast.",
    "I like to drive.",
    "The road is long.",
    "Green light means go.",
    "Watch out for the turn.",
    "Keep your eyes open.",
    "Steer with both hands.",
    "The engine is loud.",
    "Race to the finish line.",
    "Do not crash the car."]
  let medium := [
    "The neon lights blurred as the speed increased.",
    "Driving at night requires focus and calm nerves.",
    "The engine roared like a beast awakening from slumber.",
    "Every turn brings a new challenge to the driver.",
    "Rain slicked the asphalt, making traction difficult.",
    "The champion racer never looks back at the competition.",
    "Shift gears at the perfect moment for maximum power.",
    "The scenery flew by in a wash of green and blue.",
    "Victory awaits those who can master their machine.",
    "Silence filled the cabin as the finish line approached."]
  let hard := [
    "Navigating the treacherous mountain pass requires not just skill, but an intuitive understanding of physics.",
    "The aerodynamic chassis sliced through the air, minimizing drag and maximizing fuel efficiency.",
    "As the sun dipped below the horizon, the golden light reflected blindingly off the polished chrome.",
    "Adrenaline coursed through his veins as the speedometer climbed higher into the red zone.",
    "The relationship between a driver and their car is a symbiotic bond forged in high-speed pursuit.",
    "Complex mechanical systems worked in harmony to propel the vehicle forward at breakneck speeds.",
    "Suddenly, the rear tires lost their grip, sending the vehicle into a controlled drift across the apex.",
    "Precision engineering is the hallmark of modern automotive design, blending art with raw power.",
    "The crowd's roar was drowned out by the thunderous symphony of twelve cylinders firing in unison.",
    "To hesitate for even a fraction of a second is to concede defeat in the world of professional racing."]
  let expert := [
    "The juxtaposition of the serene landscape against the violent mechanical fury of the engine created a surreal, almost cinematic experience.",
    "Quantum mechanics suggests that the observer affects the observed, much like how a driver's anxiety can seemingly alter the behavior of the machine.",
    "Navigating the labyrinthine streets of the cybernetic metropolis required a neural link directly to the vehicle's navigation mainframe.",
    "The visceral sensation of acceleration is merely the body's interpretation of increasing velocity overcoming inertia.",
    "In the annals of motorsport history, few have dared to challenge the theoretical limits of friction and gravity on such a perilous track.",
    "The chaotic turbulence of the wake created by the leading vehicle made overtaking a maneuver fraught with catastrophic potential.",
    "Synthesizing the data from the heads-up display, the pilot made a split-second calculation that would determine the outcome of the championship.",
    "Beneath the veneer of technological sophistication lies the primal urge to conquer distance and time through sheer mechanical will.",
    "The iridescent shimmer of the force field acted as a barrier against the abrasive dust of the Martian wasteland.",
    "Only through the rigorous application of discipline and reflex can one hope to transcend the limitations of human reaction time."]
  match difficulty with
  | Difficulty.EASY => easy
  | Difficulty.MEDIUM => medium
  | Difficulty.HARD => hard
  | Difficulty.EXPERT => expert

/-- `fetchSentences` (src/unnamed/part_007 lines 22-48).  The asynchronous
retrieval (model call, empty-response check, JSON parse) is abstracted as an
`Except` argument: any throw inside the `try` block is `Except.error`, a
successfully parsed sentence list is `Except.ok`.  The `catch` resolves with
the static fallback corpus for the requested difficulty. -/
def fetchSentences (difficulty : Difficulty)
    (apiResult : Except String (List String)) : List String :=
  match apiResult with
  | Except.ok sentenceList => sentenceList
  | Except.error _ => getFallbackSentences difficulty

/-! ### Helper lemmas about the keystroke handler -/

/-- Fields that the scoring block never writes. -/
theorem scoreKeystroke_ok_frame {s s1 : AppState} {input t : String}
    (h : scoreKeystroke s input t = Except.ok s1) :
    s1.status = s.status ∧ s1.sentences = s.sentences ∧
    s1.currentSentenceIndex = s.currentSentenceIndex ∧
    s1.userInput = s.userInput ∧ s1.opponentStats = s.opponentStats := by
  unfold scoreKeystroke at h
  split at h
  · dsimp only [] at h
    split at h
    · injection h with h
      subst h
      simp
    · split at h
      · exact absurd h (by simp)
      · injection h with h
        subst h
        simp
  · injection h with h
    subst h
    simp

/-- The scoring block only ever increments the counters, and the increment
to `correctChars` is accompanied by the increment to `totalCharsTyped`. -/
theorem scoreKeystroke_mono {s s1 : AppState} {input t : String}
    (h : scoreKeystroke s input t = Except.ok s1) :
    s.correctChars ≤ s1.correctChars ∧
    s.totalCharsTyped ≤ s1.totalCharsTyped ∧
    (s.correctChars ≤ s.totalCharsTyped →
      s1.correctChars ≤ s1.totalCharsTyped) := by
  unfold scoreKeystroke at h
  split at h
  · dsimp only [] at h
    split at h
    · injection h with h
      subst h
      refine ⟨?_, ?_, ?_⟩ <;> simp <;> omega
    · split at h
      · exact absurd h (by simp)
      · injection h with h
        subst h
        refine ⟨?_, ?_, ?_⟩ <;> simp <;> omega
  · injection h with h
    subst h
    simp

/-- A successfully scored keystroke never lets the input outgrow the target:
if the old buffer was within the target's length and the block did not
throw, the new input is within the target's length as well. -/
theorem scoreKeystroke_ok_len {s s1 : AppState} {input t : String}
    (h : scoreKeystroke s input t = Except.ok s1)
    (hb : s.userInput.length ≤ t.length) :
    input.length ≤ t.length := by
  unfold scoreKeystroke at h
  split at h
  case isTrue hgrow =>
    have hdata : input.data.length = input.length := rfl
    have hin : input.data.get? (input.length - 1) ≠ none := by
      simp only [ne_eq, List.get?_eq_none]
      omega
    dsimp only [] at h
    split at h
    case isTrue heq =>
      -- typedChar = expectedChar forces expectedChar to be in range
      rw [heq] at hin
      rcases ho : t.data.get? (input.length - 1) with _ | c
      · exact absurd ho hin
      · have := (List.get?_eq_some.mp ho).1
        show input.length ≤ t.data.length
        omega
    case isFalse heq =>
      split at h
      · exact absurd h (by simp)
      case h_2 c ho =>
        have := (List.get?_eq_some.mp ho).1
        show input.length ≤ t.data.length
        omega
  case isFalse hgrow =>
    omega

/-- Incrementing an error key raises exactly that key's tally by one. -/
theorem getErr_incErr (m : List (Char × Nat)) (c : Char) :
    getErr (incErr m c) c = getErr m c + 1 := by
  have hfind : List.find? (fun p => p.1 == c) ((c, getErr m c + 1) :: m) =
      some (c, getErr m c + 1) := List.find?_cons_of_pos _ (by simp)
  simp [incErr, getErr, hfind]

/-- Characterization of `handleInputChange` in the PLAYING state with a
loaded target: the handler is the scoring block followed by the
buffer-store and exact-match completion check. -/
theorem handleInputChange_playing {s : AppState} {input target : String}
    (hst : s.status = GameStatus.PLAYING)
    (htgt : s.sentences.get? s.currentSentenceIndex = some target) :
    handleInputChange s input =
      match scoreKeystroke s input target with
      | Except.error e => Except.error e
      | Except.ok s1 =>
        if input = target then
          Except.ok { s1 with
            currentSentenceIndex :=
              (s.currentSentenceIndex + 1) % s.sentences.length
            userInput := "" }
        else
          Except.ok { s1 with userInput := input } := by
  have hlen : s.sentences.length ≠ 0 := by
    have := (List.get?_eq_some.mp htgt).1
    omega
  unfold handleInputChange
  rw [if_neg (by simp [hst, hlen]), htgt]

/-- The handler never changes the loaded sentence list or the PLAYING
status. -/
theorem handleInputChange_ok_frame {s s' : AppState} {input : String}
    (h : handleInputChange s input = Except.ok s') :
    s'.sentences = s.sentences ∧ s'.status = s.status ∧
    s'.opponentStats = s.opponentStats := by
  unfold handleInputChange at h
  split at h
  · injection h with h
    subst h
    exact ⟨rfl, rfl, rfl⟩
  · split at h
    · exact absurd h (by simp)
    case h_2 target htgt =>
      split at h
      · exact absurd h (by simp)
      case h_2 s1 hsk =>
        obtain ⟨h1, h2, _, _, h5⟩ := scoreKeystroke_ok_frame hsk
        split at h
        · injection h with h
          subst h
          exact ⟨h2, h1, h5⟩
        · injection h with h
          subst h
          exact ⟨h2, h1, h5⟩

/-- Per-event counter monotonicity, and preservation of
`correctChars ≤ totalCharsTyped`. -/
theorem handleInputChange_mono {s s' : AppState} {input : String}
    (h : handleInputChange s input = Except.ok s') :
    s.correctChars ≤ s'.correctChars ∧
    s.totalCharsTyped ≤ s'.totalCharsTyped ∧
    (s.correctChars ≤ s.totalCharsTyped →
      s'.correctChars ≤ s'.totalCharsTyped) := by
  unfold handleInputChange at h
  split at h
  · injection h with h
    subst h
    exact ⟨le_refl _, le_refl _, id⟩
  · split at h
    · exact absurd h (by simp)
    case h_2 target htgt =>
      split at h
      · exact absurd h (by simp)
      case h_2 s1 hsk =>
        have hm := scoreKeystroke_mono hsk
        split at h
        · injection h with h
          subst h
          exact hm
        · injection h with h
          subst h
          exact hm

/-! ### Session invariant: the buffer never outgrows the current target -/

/-- The reachability invariant of a PLAYING session: once sentences are
loaded, the sentence index is in range and the input buffer is no longer
than the current target sentence. -/
def SessionInv (s : AppState) : Prop :=
  s.sentences = [] ∨
    (s.currentSentenceIndex < s.sentences.length ∧
     s.userInput.length ≤
       ((s.sentences.get? s.currentSentenceIndex).getD "").length)

/-- `startLocalGame` establishes the invariant. -/
theorem startLocalGame_inv (s : AppState) (now : Int) :
    SessionInv (startLocalGame s now) := by
  rcases hs : s.sentences with _ | ⟨t, rest⟩
  · exact Or.inl (by simp [startLocalGame, hs])
  · refine Or.inr ⟨?_, ?_⟩
    · simp [startLocalGame, hs]
    · simp [startLocalGame]

/-- Each successful keystroke event preserves the invariant. -/
theorem handleInputChange_inv {s s' : AppState} {input : String}
    (hinv : SessionInv s) (h : handleInputChange s input = Except.ok s') :
    SessionInv s' := by
  unfold handleInputChange at h
  split at h
  · injection h with h
    subst h
    exact hinv
  case isFalse hcond =>
    push_neg at hcond
    obtain ⟨hst, hlen⟩ := hcond
    rcases hinv with hnil | ⟨hidx, hbuf⟩
    · exact absurd (by simp [hnil]) hlen
    split at h
    · exact absurd h (by simp)
    case h_2 target htgt =>
      rw [htgt] at hbuf
      simp only [Option.getD_some] at hbuf
      split at h
      · exact absurd h (by simp)
      case h_2 s1 hsk =>
        obtain ⟨_, hsen, hidx1, _, _⟩ := scoreKeystroke_ok_frame hsk
        have hlen1 : input.length ≤ target.length :=
          scoreKeystroke_ok_len hsk hbuf
        split at h
        · injection h with h
          subst h
          refine Or.inr ⟨?_, ?_⟩
          · simp only [hsen]
            exact Nat.mod_lt _ (by omega)
          · simp
        · injection h with h
          subst h
          refine Or.inr ⟨?_, ?_⟩
          · simpa [hsen, hidx1] using hidx
          · show input.length ≤
              ((s1.sentences.get? s1.currentSentenceIndex).getD "").length
            rw [hsen, hidx1, htgt]
            simpa using hlen1

/-- Multi-step frame: a run of keystroke events never changes the sentence
list, status or opponent snapshot. -/
theorem runInputs_ok_frame {s s' : AppState} {inputs : List String}
    (h : runInputs s inputs = Except.ok s') :
    s'.sentences = s.sentences ∧ s'.status = s.status ∧
    s'.opponentStats = s.opponentStats := by
  induction inputs generalizing s with
  | nil =>
    injection h with h
    subst h
    exact ⟨rfl, rfl, rfl⟩
  | cons input rest ih =>
    unfold runInputs at h
    split at h
    case h_1 s1 hstep =>
      obtain ⟨h1, h2, h3⟩ := handleInputChange_ok_frame hstep
      obtain ⟨g1, g2, g3⟩ := ih h
      exact ⟨g1.trans h1, g2.trans h2, g3.trans h3⟩
    · exact absurd h (by simp)

/-- Multi-step invariant preservation. -/
theorem runInputs_inv {s s' : AppState} {inputs : List String}
    (hinv : SessionInv s) (h : runInputs s inputs = Except.ok s') :
    SessionInv s' := by
  induction inputs generalizing s with
  | nil =>
    injection h with h
    subst h
    exact hinv
  | cons input rest ih =>
    unfold runInputs at h
    split at h
    case h_1 s1 hstep => exact ih (handleInputChange_inv hinv hstep) h
    · exact absurd h (by simp)

/-- Multi-step counter bound: from zeroed counters, after any successful run
`correctChars ≤ totalCharsTyped`. -/
theorem runInputs_correct_le_total {s s' : AppState} {inputs : List String}
    (hle : s.correctChars ≤ s.totalCharsTyped)
    (h : runInputs s inputs = Except.ok s') :
    s'.correctChars ≤ s'.totalCharsTyped := by
  induction inputs generalizing s with
  | nil =>
    injection h with h
    subst h
    exact hle
  | cons input rest ih =>
    unfold runInputs at h
    split at h
    case h_1 s1 hstep =>
      exact ih ((handleInputChange_mono hstep).2.2 hle) h
    · exact absurd h (by simp)

/-- Under the invariant, with every loaded sentence non-empty, the derived
progress lies in the unit interval. -/
theorem progress_bounds {s : AppState}
    (hall : ∀ t ∈ s.sentences, 0 < t.length)
    (hne : s.sentences ≠ []) (hinv : SessionInv s) :
    0 ≤ progress s ∧ progress s ≤ 1 := by
  rcases hinv with hnil | ⟨hidx, hbuf⟩
  · exact absurd hnil hne
  rcases htgt : s.sentences.get? s.currentSentenceIndex with _ | target
  · rw [List.get?_eq_none] at htgt
    omega
  rw [htgt] at hbuf
  simp only [Option.getD_some] at hbuf
  have htpos : 0 < target.length := hall target (List.get?_mem htgt)
  have hup : (s.userInput.length : ℚ) / (target.length : ℚ) ≤ 1 := by
    rw [div_le_one (by exact_mod_cast htpos)]
    exact_mod_cast hbuf
  have hup0 : 0 ≤ (s.userInput.length : ℚ) / (target.length : ℚ) := by
    positivity
  have hlpos : (0 : ℚ) < (s.sentences.length : ℚ) := by
    have : 0 < s.sentences.length := by omega
    exact_mod_cast this
  unfold progress
  rw [if_pos (by omega), htgt]
  simp only [Option.getD_some]
  constructor
  · positivity
  · rw [div_le_one hlpos]
    have hcast : (s.currentSentenceIndex : ℚ) + 1 ≤ (s.sentences.length : ℚ) := by
      exact_mod_cast hidx
    linarith

/-! ### Concrete states used to instantiate the claim theorems -/

/-- A concrete idle state with the component's initial field values. -/
def baseState : AppState :=
  { status := GameStatus.IDLE
    sentences := []
    currentSentenceIndex := 0
    userInput := ""
    startTime := none
    endTime := none
    totalCharsTyped := 0
    correctChars := 0
    timeRemaining := GAME_DURATION
    isBraking := false
    errors := []
    opponentStats := { wpm := 0, progress := 0, name := "Opponent", carModel := "audi" } }

/-- A state with one loaded sentence, not yet started. -/
def loadedState : AppState := { baseState with sentences := ["ab"] }

/-- A mid-race state: PLAYING on the target "aB" with one character typed. -/
def playingState : AppState :=
  { baseState with
    status := GameStatus.PLAYING
    sentences := ["aB"]
    userInput := "a" }

/-- A mid-race state on the second of two sentences, one keystroke from
completing it. -/
def wrapState : AppState :=
  { baseState with
    status := GameStatus.PLAYING
    sentences := ["ab", "cd"]
    currentSentenceIndex := 1
    userInput := "c" }

/-! ### Claim theorems -/

/-- Claim C1: while PLAYING with a loaded target, a keystroke event that
grows the input increments `totalCharsTyped` by exactly 1 and compares only
the character at index `len(input) - 1` against the target at that index:
on a match `correctChars` rises by 1 and the ErrorMap is untouched; on a
mismatch `correctChars` is unchanged and the ErrorMap count of the
lowercased expected character rises by 1.  The growth may be by any number
of characters: only the last position is scored. -/
theorem keystroke_scores_only_last_position (s : AppState)
    (input target : String) (tc ec : Char)
    (hst : s.status = GameStatus.PLAYING)
    (htgt : s.sentences.get? s.currentSentenceIndex = some target)
    (hgrow : s.userInput.length < input.length)
    (htc : input.data.get? (input.length - 1) = some tc)
    (hec : target.data.get? (input.length - 1) = some ec) :
    ∃ s', handleInputChange s input = Except.ok s' ∧
      s'.totalCharsTyped = s.totalCharsTyped + 1 ∧
      (tc = ec → s'.correctChars = s.correctChars + 1 ∧ s'.errors = s.errors) ∧
      (tc ≠ ec → s'.correctChars = s.correctChars ∧
        getErr s'.errors ec.toLower = getErr s.errors ec.toLower + 1) := by
  rw [handleInputChange_playing hst htgt]
  by_cases hc : tc = ec
  · have hsk : scoreKeystroke s input target =
        Except.ok { s with
          totalCharsTyped := s.totalCharsTyped + 1
          correctChars := s.correctChars + 1 } := by
      unfold scoreKeystroke
      rw [if_pos hgrow]
      dsimp only []
      rw [htc, hec, if_pos (by rw [hc])]
    rw [hsk]
    dsimp only []
    by_cases hdone : input = target
    · rw [if_pos hdone]
      exact ⟨_, rfl, rfl, fun _ => ⟨rfl, rfl⟩, fun hne => absurd hc hne⟩
    · rw [if_neg hdone]
      exact ⟨_, rfl, rfl, fun _ => ⟨rfl, rfl⟩, fun hne => absurd hc hne⟩
  · have hsk : scoreKeystroke s input target =
        Except.ok { s with
          totalCharsTyped := s.totalCharsTyped + 1
          errors := incErr s.errors ec.toLower
          isBraking := true } := by
      unfold scoreKeystroke
      rw [if_pos hgrow]
      dsimp only []
      rw [htc, hec, if_neg (by simp [hc])]
    rw [hsk]
    dsimp only []
    by_cases hdone : input = target
    · rw [if_pos hdone]
      exact ⟨_, rfl, rfl, fun hh => absurd hh hc,
        fun _ => ⟨rfl, getErr_incErr s.errors ec.toLower⟩⟩
    · rw [if_neg hdone]
      exact ⟨_, rfl, rfl, fun hh => absurd hh hc,
        fun _ => ⟨rfl, getErr_incErr s.errors ec.toLower⟩⟩

/-- Witness for C1: in `playingState` (target "aB", buffer "a"), the
keystroke "ax" is a mismatch at index 1; the expected character 'B' is
tallied lowercased. -/
theorem keystroke_scores_only_last_position_witness :
    playingState.status = GameStatus.PLAYING ∧
    playingState.sentences.get? playingState.currentSentenceIndex = some "aB" ∧
    playingState.userInput.length < ("ax" : String).length ∧
    ("ax" : String).data.get? (("ax" : String).length - 1) = some 'x' ∧
    ("aB" : String).data.get? (("ax" : String).length - 1) = some 'B' ∧
    (∃ s', handleInputChange playingState "ax" = Except.ok s' ∧
      s'.totalCharsTyped = playingState.totalCharsTyped + 1 ∧
      ('x' = 'B' → s'.correctChars = playingState.correctChars + 1 ∧
        s'.errors = playingState.errors) ∧
      ('x' ≠ 'B' → s'.correctChars = playingState.correctChars ∧
        getErr s'.errors 'B'.toLower = getErr playingState.errors 'B'.toLower + 1)) := by
  refine ⟨rfl, rfl, by decide, by decide, by decide, ?_⟩
  exact keystroke_scores_only_last_position playingState "ax" "aB" 'x' 'B'
    rfl rfl (by decide) (by decide) (by decide)

/-- The scoring block cannot throw when the input is no longer than the
target (the expected character is then always in range). -/
theorem scoreKeystroke_ok_of_le (s : AppState) {input t : String}
    (hlen : input.length ≤ t.length) :
    ∃ s1, scoreKeystroke s input t = Except.ok s1 := by
  unfold scoreKeystroke
  split
  case isTrue hgrow =>
    dsimp only []
    rcases ho : t.data.get? (input.length - 1) with _ | c
    · exfalso
      rw [List.get?_eq_none] at ho
      have ht : t.data.length = t.length := rfl
      omega
    · split
      · exact ⟨_, rfl⟩
      · exact ⟨_, rfl⟩
  case isFalse => exact ⟨_, rfl⟩

/-- Claim C2: sentence completion is exact-match only.  With a loaded
target, an input exactly equal to it advances the sentence index by one
modulo the list length and clears the buffer; any successful keystroke
whose input differs from the target leaves the index unchanged. -/
theorem sentence_completion_exact_match (s : AppState)
    (input target : String)
    (hst : s.status = GameStatus.PLAYING)
    (htgt : s.sentences.get? s.currentSentenceIndex = some target) :
    (input = target →
      ∃ s', handleInputChange s input = Except.ok s' ∧
        s'.currentSentenceIndex =
          (s.currentSentenceIndex + 1) % s.sentences.length ∧
        s'.userInput = "") ∧
    (∀ s', handleInputChange s input = Except.ok s' → input ≠ target →
      s'.currentSentenceIndex = s.currentSentenceIndex) := by
  rw [handleInputChange_playing hst htgt]
  constructor
  · intro hdone
    subst hdone
    obtain ⟨s1, hsk⟩ := scoreKeystroke_ok_of_le s (le_refl input.length)
    rw [hsk]
    dsimp only []
    rw [if_pos rfl]
    exact ⟨_, rfl, rfl, rfl⟩
  · intro s' h hne
    rcases hsk : scoreKeystroke s input target with e | s1
    · rw [hsk] at h
      exact absurd h (by simp)
    · rw [hsk] at h
      dsimp only [] at h
      rw [if_neg hne] at h
      injection h with h
      subst h
      exact (scoreKeystroke_ok_frame hsk).2.2.1

/-- Witness for C2: completing the second of two sentences wraps the index
around to 0. -/
theorem sentence_completion_exact_match_witness :
    wrapState.status = GameStatus.PLAYING ∧
    wrapState.sentences.get? wrapState.currentSentenceIndex = some "cd" ∧
    (("cd" : String) = "cd" →
      ∃ s', handleInputChange wrapState "cd" = Except.ok s' ∧
        s'.currentSentenceIndex =
          (wrapState.currentSentenceIndex + 1) % wrapState.sentences.length ∧
        s'.userInput = "") ∧
    (wrapState.currentSentenceIndex + 1) % wrapState.sentences.length = 0 := by
  refine ⟨rfl, rfl, ?_, by decide⟩
  exact (sentence_completion_exact_match wrapState "cd" "cd" rfl rfl).1

/-- A state whose opponent snapshot carries non-initial values, reachable
after inbound UPDATE messages. -/
def staleOpponentState : AppState :=
  { baseState with
    status := GameStatus.LOADING
    sentences := ["ab"]
    opponentStats := { wpm := 40, progress := 1/5, name := "Opponent", carModel := "audi" } }

/-- Claim C3, counterexample: `startLocalGame` (src/App.tsx) does not write
the opponent snapshot, so starting from a state whose snapshot holds
`wpm = 40` leaves `wpm = 40`, not the claimed initial value 0. -/
theorem startLocalGame_opponent_not_reset :
    (startLocalGame staleOpponentState 1000).opponentStats.wpm = 40 ∧
    ¬((startLocalGame staleOpponentState 1000).opponentStats.wpm = 0 ∧
      (startLocalGame staleOpponentState 1000).opponentStats.progress = 0) := by
  refine ⟨rfl, ?_⟩
  intro hcontra
  exact absurd hcontra.1 (by decide)

/-- Claim C3 (amended): `startLocalGame` records the start timestamp, resets
`correctChars`, `totalCharsTyped`, the input buffer and the sentence index,
and clears `endTime`, but leaves the opponent snapshot unchanged; only the
earlier variant in src/unnamed/part_000 additionally resets the opponent
snapshot to wpm 0 / progress 0. -/
theorem startLocalGame_postcondition (s : AppState) (now : Int) :
    (startLocalGame s now).status = GameStatus.PLAYING ∧
    (startLocalGame s now).startTime = some now ∧
    (startLocalGame s now).correctChars = 0 ∧
    (startLocalGame s now).totalCharsTyped = 0 ∧
    (startLocalGame s now).userInput = "" ∧
    (startLocalGame s now).currentSentenceIndex = 0 ∧
    (startLocalGame s now).endTime = none ∧
    (startLocalGame s now).opponentStats = s.opponentStats ∧
    (startLocalGameP0 s now).opponentStats.wpm = 0 ∧
    (startLocalGameP0 s now).opponentStats.progress = 0 :=
  ⟨rfl, rfl, rfl, rfl, rfl, rfl, rfl, rfl, rfl, rfl⟩

/-- Claim C4: for every state reachable by keystroke events from a started
session whose loaded sentences are all non-empty, the derived progress lies
in the closed interval [0, 1]; when no sentences are loaded, progress
equals 0. -/
theorem progress_in_unit_interval (s0 : AppState) (now : Int)
    (inputs : List String) (s' : AppState)
    (hall : s0.sentences.all (fun t => t.length != 0) = true)
    (hrun : runInputs (startLocalGame s0 now) inputs = Except.ok s') :
    (s'.sentences ≠ [] → 0 ≤ progress s' ∧ progress s' ≤ 1) ∧
    (s'.sentences = [] → progress s' = 0) := by
  have hframe := runInputs_ok_frame hrun
  have hinv := runInputs_inv (startLocalGame_inv s0 now) hrun
  constructor
  · intro hne
    apply progress_bounds _ hne hinv
    intro t ht
    have hsen : s'.sentences = s0.sentences := hframe.1.trans rfl
    rw [hsen] at ht
    have hmem := List.all_eq_true.mp hall t ht
    have : t.length ≠ 0 := by simpa using hmem
    omega
  · intro hnil
    unfold progress
    rw [if_neg (by simp [hnil])]

/-- Witness for C4: a freshly started session on the single sentence "ab"
has progress 0, inside [0, 1]. -/
theorem progress_in_unit_interval_witness :
    loadedState.sentences.all (fun t => t.length != 0) = true ∧
    runInputs (startLocalGame loadedState 0) [] =
      Except.ok (startLocalGame loadedState 0) ∧
    (0 ≤ progress (startLocalGame loadedState 0) ∧
      progress (startLocalGame loadedState 0) ≤ 1) := by
  refine ⟨by decide, rfl, ?_⟩
  exact (progress_in_unit_interval loadedState 0 [] (startLocalGame loadedState 0)
    (by decide) rfl).1 (by decide)

/-- Claim C5: counters are monotone per keystroke event (never revised
downward, including shrinking edits), and after any successful sequence of
keystroke events from session start `correctChars ≤ totalCharsTyped`. -/
theorem counters_monotone_and_ordered (s s' : AppState) (input : String)
    (hstep : handleInputChange s input = Except.ok s')
    (s0 t : AppState) (now : Int) (inputs : List String)
    (hrun : runInputs (startLocalGame s0 now) inputs = Except.ok t) :
    (s.correctChars ≤ s'.correctChars ∧
     s.totalCharsTyped ≤ s'.totalCharsTyped) ∧
    t.correctChars ≤ t.totalCharsTyped := by
  have hm := handleInputChange_mono hstep
  refine ⟨⟨hm.1, hm.2.1⟩, ?_⟩
  exact runInputs_correct_le_total (by simp [startLocalGame]) hrun

/-- The state after the correct keystroke "a" in `loadedState`'s session. -/
def afterOneKey : AppState :=
  { loadedState with
    status := GameStatus.PLAYING
    startTime := some 0
    userInput := "a"
    totalCharsTyped := 1
    correctChars := 1 }

/-- Witness for C5: one matching keystroke from a started session. -/
theorem counters_monotone_and_ordered_witness :
    handleInputChange (startLocalGame loadedState 0) "a" =
      Except.ok afterOneKey ∧
    runInputs (startLocalGame loadedState 0) ["a"] = Except.ok afterOneKey ∧
    (((startLocalGame loadedState 0).correctChars ≤ afterOneKey.correctChars ∧
      (startLocalGame loadedState 0).totalCharsTyped ≤
        afterOneKey.totalCharsTyped) ∧
     afterOneKey.correctChars ≤ afterOneKey.totalCharsTyped) := by
  refine ⟨rfl, rfl, ?_⟩
  exact counters_monotone_and_ordered (startLocalGame loadedState 0) afterOneKey
    "a" rfl loadedState afterOneKey 0 ["a"] rfl

/-- With a JS-truthy start timestamp and no zero end timestamp,
`calculateWPM` computes the guarded rounded rate from the effective end
time `endTime.getD now`. -/
theorem calculateWPM_pos_start (st : Int) (endTime : Option Int)
    (correct : Nat) (now : Int) (hst : st ≠ 0) (hend : endTime ≠ some 0) :
    calculateWPM (some st) endTime correct now =
      (if (((endTime.getD now - st : Int) : ℚ) / 1000 / 60) ≤ 0 then 0
       else jsRound ((correct : ℚ) / 5 /
         (((endTime.getD now - st : Int) : ℚ) / 1000 / 60))) := by
  unfold calculateWPM
  dsimp only []
  rw [if_neg hst]
  cases endTime with
  | none => rfl
  | some e =>
    have he : e ≠ 0 := fun h => hend (by rw [h])
    dsimp only []
    rw [if_neg he]
    rfl

/-- Claim C6: the derived WPM equals `round((correctChars / 5) /
elapsedMinutes)` with elapsed time measured from `startTime` to `now` (or
to `endTime` once the session has ended), and equals 0 whenever the elapsed
minutes are ≤ 0; in particular 6 correct characters over 6 seconds yield
WPM 12. -/
theorem wpm_formula (st now : Int) (endTime : Option Int) (correct : Nat)
    (hst : 0 < st) (hend : endTime ≠ some 0) :
    ((((endTime.getD now - st : Int) : ℚ) / 1000 / 60) ≤ 0 →
      calculateWPM (some st) endTime correct now = 0) ∧
    (0 < (((endTime.getD now - st : Int) : ℚ) / 1000 / 60) →
      calculateWPM (some st) endTime correct now =
        jsRound ((correct : ℚ) / 5 /
          (((endTime.getD now - st : Int) : ℚ) / 1000 / 60))) ∧
    calculateWPM (some 1000) none 6 7000 = 12 := by
  have hch := calculateWPM_pos_start st endTime correct now (by omega) hend
  refine ⟨?_, ?_, ?_⟩
  · intro h
    rw [hch, if_pos h]
  · intro h
    rw [hch, if_neg (not_le.mpr h)]
  · unfold calculateWPM jsRound
    norm_num

/-- Witness for C6: a started session with positive elapsed time. -/
theorem wpm_formula_witness :
    (0 : Int) < 1000 ∧ (none : Option Int) ≠ some 0 ∧
    calculateWPM (some 1000) none 6 7000 = 12 := by
  refine ⟨by decide, by decide, ?_⟩
  exact (wpm_formula 1000 7000 none 6 (by decide) (by decide)).2.2

/-- Claim C7: accuracy is 100 when nothing has been typed, and
`round(correctChars / totalCharsTyped * 100)` otherwise; under the
counter invariant `correctChars ≤ totalCharsTyped` it lies in [0, 100]. -/
theorem accuracy_formula_and_bounds (total correct : Nat)
    (h : correct ≤ total) :
    calculateAccuracy 0 correct = 100 ∧
    (total ≠ 0 → calculateAccuracy total correct =
      jsRound ((correct : ℚ) / (total : ℚ) * 100)) ∧
    0 ≤ calculateAccuracy total correct ∧
    calculateAccuracy total correct ≤ 100 := by
  refine ⟨rfl, ?_, ?_, ?_⟩
  · intro ht
    unfold calculateAccuracy
    rw [if_neg ht]
  · by_cases ht : total = 0
    · subst ht
      unfold calculateAccuracy
      norm_num
    · unfold calculateAccuracy jsRound
      rw [if_neg ht]
      have : (0 : ℚ) ≤ (correct : ℚ) / (total : ℚ) * 100 := by positivity
      exact Int.floor_nonneg.mpr (by linarith)
  · by_cases ht : total = 0
    · subst ht
      unfold calculateAccuracy
      norm_num
    · unfold calculateAccuracy jsRound
      rw [if_neg ht]
      have hdiv : (correct : ℚ) / (total : ℚ) ≤ 1 := by
        rw [div_le_one (by exact_mod_cast Nat.pos_of_ne_zero ht)]
        exact_mod_cast h
      have hq : (correct : ℚ) / (total : ℚ) * 100 + 1 / 2 ≤ (201 : ℚ) / 2 := by
        nlinarith [Nat.cast_nonneg (α := ℚ) correct,
          Nat.cast_nonneg (α := ℚ) total]
      calc Int.floor ((correct : ℚ) / (total : ℚ) * 100 + 1 / 2)
          ≤ Int.floor ((201 : ℚ) / 2) := Int.floor_le_floor hq
        _ = 100 := by
          rw [Int.floor_eq_iff]
          norm_num

/-- Witness for C7: 1 correct of 2 typed gives an accuracy within
[0, 100]. -/
theorem accuracy_formula_and_bounds_witness :
    (1 : Nat) ≤ 2 ∧ 0 ≤ calculateAccuracy 2 1 ∧ calculateAccuracy 2 1 ≤ 100 := by
  refine ⟨by decide, ?_, ?_⟩
  · exact (accuracy_formula_and_bounds 2 1 (by decide)).2.2.1
  · exact (accuracy_formula_and_bounds 2 1 (by decide)).2.2.2

set_option maxRecDepth 16384 in
/-- Claim C8: `fetchSentences` never propagates a retrieval error: on any
failure it resolves with the static fallback corpus for the requested
difficulty, and every tier's fallback corpus holds at least 10 distinct
non-empty sentences. -/
theorem fetchSentences_fallback (difficulty : Difficulty) (e : String) :
    fetchSentences difficulty (Except.error e) =
      getFallbackSentences difficulty ∧
    10 ≤ (getFallbackSentences difficulty).length ∧
    (getFallbackSentences difficulty).Nodup ∧
    (getFallbackSentences difficulty).all (fun t => t.length != 0) = true := by
  refine ⟨rfl, ?_, ?_, ?_⟩ <;> cases difficulty <;> decide

/-- Claim C9: applying a sequence of inbound UPDATE messages in arrival
order leaves the opponent snapshot's wpm and progress at the last-applied
payload (last-write-wins), regardless of payload magnitude, and never
touches the opponent's name; receiving wpm 40 / progress 0.2 and then
wpm 30 / progress 0.1 leaves wpm 30 and progress 0.1. -/
theorem update_last_write_wins (o : OpponentStats)
    (msgs : List UpdatePayload) (last : UpdatePayload) :
    (applyUpdates o (msgs ++ [last])).wpm = last.wpm ∧
    (applyUpdates o (msgs ++ [last])).progress = last.progress ∧
    (applyUpdates o (msgs ++ [last])).name = o.name ∧
    (applyUpdates
        { wpm := 0, progress := 0, name := "Opponent", carModel := "audi" }
        [{ wpm := 40, progress := 2/10, carModel := "audi" },
         { wpm := 30, progress := 1/10, carModel := "audi" }]).wpm = 30 ∧
    (applyUpdates
        { wpm := 0, progress := 0, name := "Opponent", carModel := "audi" }
        [{ wpm := 40, progress := 2/10, carModel := "audi" },
         { wpm := 30, progress := 1/10, carModel := "audi" }]).progress
      = 1/10 := by
  have hname : ∀ (p : OpponentStats) (l : List UpdatePayload),
      (applyUpdates p l).name = p.name := by
    intro p l
    induction l generalizing p with
    | nil => rfl
    | cons m rest ih => exact (ih (applyUpdate p m)).trans rfl
  refine ⟨?_, ?_, hname o (msgs ++ [last]), rfl, rfl⟩
  · unfold applyUpdates
    rw [List.foldl_append]
    rfl
  · unfold applyUpdates
    rw [List.foldl_append]
    rfl

/-- Claim C10: the keystroke handler is not total.  Starting a session on
the target "ab" and typing "a", "ax", "axy" reaches, at the third event, an
appended character at index 2 ≥ len("ab"); the expected-character lookup is
out of range, the match test fails, and the mismatch branch's lowercasing
of the undefined expected character raises a runtime type error instead of
recording an ErrorMap entry. -/
theorem keystroke_handler_not_total :
    runInputs (startLocalGame loadedState 0) ["a", "ax", "axy"] =
      Except.error "TypeError: cannot read toLowerCase of undefined" := rfl
